import Mathlib

/-!
# Verification of the IA-VOICE storefront core

Shallow embedding of the catalog query service and the cart/checkout state
machine of `src/setup/setup.ts` (together with their call sites in
`src/app/items/page.tsx`, `src/app/admin/items/page.tsx`,
`src/app/cart/checkout/page.tsx` and `src/app/profile/page.tsx`),
and proofs of the specification's testable properties about them.

Modelling conventions:
* The Firestore document store is a list of records; a query with an
  equality filter is `List.filter`, a server-side `orderBy` is a sort of
  the store, `limit` is `List.take`.
* JavaScript `Array.prototype.sort` with a numeric comparator is a stable
  sort; it is embedded as `List.mergeSort` with the comparator's `≤` test.
* Timestamps (`createdAt`, `updatedAt`) are embedded as integers standing
  for the parsed epoch value (`new Date(s).getTime()`).
* Item names are lists of UTF-16 code units (naturals) compared
  lexicographically, as JavaScript string comparison does.
* Prices are integers (sorting and summation never depend on fractionality).
-/

namespace IAVoice

/-- The `sortBy` parameter of `getAllItems` / `getItemsByCategory`. -/
inductive SortBy
  | newest
  | price_asc
  | price_desc
deriving DecidableEq, Repr

/-- The `Item` record shape of `setup.ts` (fields irrelevant to the claims,
such as image URLs and description, are omitted; `createdAt` is the parsed
timestamp; `name` is the list of UTF-16 code units). -/
structure Item where
  id : String
  name : List Nat
  price : Int
  category_id : String
  createdAt : Int
deriving DecidableEq, Repr

/-- The in-memory comparators of `getItemsByCategory` (lines 784-795 of
`setup.ts`): `a.price - b.price` for `price_asc`, `b.price - a.price` for
`price_desc`, and `dateB - dateA` on parsed `createdAt` for `newest`,
each as the `≤` test a stable sort realises. -/
def sortLe (sb : SortBy) (a b : Item) : Bool :=
  match sb with
  | .price_asc => a.price ≤ b.price
  | .price_desc => b.price ≤ a.price
  | .newest => b.createdAt ≤ a.createdAt

/-- `items.sort(comparator)`: a stable sort by the requested key. -/
def sortItems (sb : SortBy) (items : List Item) : List Item :=
  items.mergeSort (sortLe sb)

/-- One page of results together with the pagination cursor
(`{ items, lastVisible }` in `setup.ts`); the cursor is embedded as the
item the document snapshot points at. -/
structure PageResult where
  items : List Item
  lastVisible : Option Item
deriving DecidableEq, Repr

/-- Lines 798-806 of `setup.ts`: the slice start. `startIndex` is 0 with no
cursor; with a cursor it is `findIndex(item => item.id === lastVisible.id) + 1`
when the id occurs in the sorted list and stays 0 when `findIndex` gives -1. -/
def startIndexOf (sorted : List Item) (lastVisible : Option Item) : Nat :=
  match lastVisible with
  | none => 0
  | some cur =>
    match sorted.findIdx? (fun it => it.id == cur.id) with
    | some i => i + 1
    | none => 0

/-- `getItemsByCategory` (lines 734-824 of `setup.ts`): fetch every item
whose `category_id` equals `categoryId` (an equality-only query, no
server-side order), sort the full result set in memory by the requested
key, slice `[startIndex, startIndex + limitCount)`, and return as cursor
the document of the unsorted snapshot whose id is the last page item's id
(`find(...) || null`), or `null` for an empty page. -/
def getItemsByCategory (store : List Item) (categoryId : String)
    (sb : SortBy) (limitCount : Nat) (lastVisible : Option Item) : PageResult :=
  let categoryDocs := store.filter (fun it => it.category_id == categoryId)
  let items := sortItems sb categoryDocs
  let startIndex := startIndexOf items lastVisible
  let paginatedItems := (items.drop startIndex).take limitCount
  let newLastVisible :=
    match paginatedItems.getLast? with
    | some last => categoryDocs.find? (fun d => d.id == last.id)
    | none => none
  { items := paginatedItems, lastVisible := newLastVisible }

/-- Errors the document store can report on a query; the distinguished
`missingIndex` is Firestore's `failed-precondition` for a combined
equality filter + order-by with no precomputed composite index. -/
inductive StoreError
  | missingIndex
deriving DecidableEq, Repr

/-- The document-store items query of §6: an optional equality filter on
`category_id` and an optional server-side order. The store cannot combine
both without a composite index and reports `missingIndex` in that case. -/
def queryItems (store : List Item) (filterCategory : Option String)
    (order : Option SortBy) : Except StoreError (List Item) :=
  match filterCategory, order with
  | some _, some _ => .error .missingIndex
  | some c, none => .ok (store.filter (fun it => it.category_id == c))
  | none, some sb => .ok (sortItems sb store)
  | none, none => .ok store

/-- `getAllItems` (lines 667-731 of `setup.ts`): with a present
`categoryId` it delegates to `getItemsByCategory` before any store query
is issued; otherwise it runs the server-ordered query, resumes after the
cursor (`startAfter`), takes `limitCount` items, and returns as cursor the
last document of the page when the page is non-empty and `null` otherwise.
Store errors are logged and rethrown unchanged. -/
def getAllItems (store : List Item) (categoryId : Option String)
    (sb : SortBy) (limitCount : Nat) (lastVisible : Option Item) :
    Except StoreError PageResult :=
  match categoryId with
  | some cid => .ok (getItemsByCategory store cid sb limitCount lastVisible)
  | none =>
    match queryItems store none (some sb) with
    | .error e => .error e
    | .ok sorted =>
      let afterCursor :=
        match lastVisible with
        | none => sorted
        | some cur =>
          match sorted.findIdx? (fun it : Item => it.id == cur.id) with
          | some i => sorted.drop (i + 1)
          | none => sorted
      let page := afterCursor.take limitCount
      .ok { items := page, lastVisible := page.getLast? }

/-- The category-present specialisation of the caller loop: fetch a page
from `getItemsByCategory`, and while pages keep coming pass the returned
`lastVisible` back as the cursor of the next call. `fuel` bounds the
number of calls (the loop stops as soon as a page is empty). -/
def collectPages (store : List Item) (categoryId : String) (sb : SortBy)
    (limitCount : Nat) : Nat → Option Item → List Item
  | 0, _ => []
  | fuel + 1, cursor =>
    let r := getItemsByCategory store categoryId sb limitCount cursor
    if r.items.isEmpty then []
    else r.items ++ collectPages store categoryId sb limitCount fuel r.lastVisible

/-- The caller loop of `items/page.tsx` over `getAllItems` with its
optional `categoryId`: fetch a page, and while pages keep coming pass the
returned `lastVisible` back as the cursor of the next call; a store error
ends the loop. `fuel` bounds the number of calls (the loop stops as soon
as a page is empty). -/
def collectPagesAll (store : List Item) (categoryId : Option String)
    (sb : SortBy) (limitCount : Nat) : Nat → Option Item → List Item
  | 0, _ => []
  | fuel + 1, cursor =>
    match getAllItems store categoryId sb limitCount cursor with
    | .error _ => []
    | .ok r =>
      if r.items.isEmpty then []
      else r.items ++ collectPagesAll store categoryId sb limitCount fuel r.lastVisible

/-- The full set of items matching an optional category filter: the whole
store when the filter is absent. -/
def matchingItems (store : List Item) (categoryId : Option String) : List Item :=
  match categoryId with
  | some cid => store.filter (fun it => it.category_id == cid)
  | none => store

/-- Lexicographic `≤` on code-unit lists: JavaScript string comparison. -/
def lexLe : List Nat → List Nat → Bool
  | [], _ => true
  | _ :: _, [] => false
  | a :: as, b :: bs => if a < b then true else if b < a then false else lexLe as bs

/-- Lexicographic `<` on code-unit lists. -/
def lexLt : List Nat → List Nat → Bool
  | [], [] => false
  | [], _ :: _ => true
  | _ :: _, [] => false
  | a :: as, b :: bs => if a < b then true else if b < a then false else lexLt as bs

/-- The sentinel code unit `""` appended to the search query as the
upper range bound in `searchItems`. -/
def SENTINEL : Nat := 0xf8ff

/-- The largest code point, the abstract upper bound `prefix + MAX_CODEPOINT`
of the specification's search range. -/
def MAX_CODEPOINT : Nat := 0x10ffff

/-- The range filter of `searchItems`: `name >= searchQuery` and
`name <= searchQuery + ""`. -/
def searchRange (searchQuery name : List Nat) : Bool :=
  lexLe searchQuery name && lexLe name (searchQuery ++ [SENTINEL])

/-- `searchItems` (lines 826-845 of `setup.ts`): the store query ordered by
`name` with the two range conditions and `limit(limitCount)`. -/
def searchItems (store : List Item) (searchQuery : List Nat)
    (limitCount : Nat) : List Item :=
  ((store.mergeSort (fun a b => lexLe a.name b.name)).filter
    (fun it => searchRange searchQuery it.name)).take limitCount

/-! ## Cart / checkout state machine (`setup.ts` lines 861-955) -/

/-- The `Checkout` record shape of `setup.ts` (a cart line item);
timestamps are parsed epoch values. -/
structure Checkout where
  id : String
  user_id : String
  item_id : String
  quantity : Nat
  is_done : Bool
  last_step : String
  reason : String
  createdAt : Int
  updatedAt : Int
deriving DecidableEq, Repr

/-- `addToCart` (lines 880-903): `addDoc` of a fresh record in state
`added_to_cart`, quantity as given, `is_done=false`, empty `reason`, both
timestamps set to now. The store-generated document id is passed in
as `newId`. -/
def addToCart (store : List Checkout) (newId userId itemId : String)
    (quantity : Nat) (now : Int) : List Checkout :=
  store ++ [{ id := newId, user_id := userId, item_id := itemId,
              quantity := quantity, is_done := false,
              last_step := "added_to_cart", reason := "",
              createdAt := now, updatedAt := now }]

/-- `updateCartItemQuantity` (lines 905-918): `updateDoc` writing only
`quantity` and `updatedAt` of the addressed record. -/
def updateCartItemQuantity (store : List Checkout) (checkoutId : String)
    (quantity : Nat) (now : Int) : List Checkout :=
  store.map fun c =>
    if c.id == checkoutId then { c with quantity := quantity, updatedAt := now } else c

/-- `updateCheckoutStep` (lines 929-942): `updateDoc` writing `last_step`
(an arbitrary caller-supplied string) and `updatedAt`. -/
def updateCheckoutStep (store : List Checkout) (checkoutId lastStep : String)
    (now : Int) : List Checkout :=
  store.map fun c =>
    if c.id == checkoutId then { c with last_step := lastStep, updatedAt := now } else c

/-- `completeCheckout` (lines 944-955, and the inlined `updateDoc` of
`cart/checkout/page.tsx` lines 164-173): writes `is_done=true`,
`last_step="completed"`, `updatedAt`. -/
def completeCheckout (store : List Checkout) (checkoutId : String)
    (now : Int) : List Checkout :=
  store.map fun c =>
    if c.id == checkoutId then
      { c with is_done := true, last_step := "completed", updatedAt := now }
    else c

/-- `removeFromCart` (lines 920-927): `deleteDoc` of the record. -/
def removeFromCart (store : List Checkout) (checkoutId : String) : List Checkout :=
  store.filter fun c => c.id != checkoutId

/-- `getCartItems` (lines 861-878): the active cart, all records with
`user_id == userId` and `is_done == false`. -/
def getCartItems (store : List Checkout) (userId : String) : List Checkout :=
  store.filter fun c => c.user_id == userId && c.is_done == false

/-- One cart/checkout operation together with its arguments. -/
inductive CartOp
  | add (newId userId itemId : String) (quantity : Nat) (now : Int)
  | setQty (checkoutId : String) (quantity : Nat) (now : Int)
  | advance (checkoutId step : String) (now : Int)
  | complete (checkoutId : String) (now : Int)
deriving DecidableEq, Repr

/-- Apply one cart/checkout operation to the store. -/
def applyOp (store : List Checkout) : CartOp → List Checkout
  | .add newId userId itemId q now => addToCart store newId userId itemId q now
  | .setQty cid q now => updateCartItemQuantity store cid q now
  | .advance cid step now => updateCheckoutStep store cid step now
  | .complete cid now => completeCheckout store cid now

/-- Apply a sequence of cart/checkout operations, left to right. -/
def applyOps (store : List Checkout) : List CartOp → List Checkout
  | [] => store
  | op :: rest => applyOps (applyOp store op) rest

/-- The discipline the application's call sites obey: `updateCheckoutStep`
is only ever invoked with step `"payment"` and only on records of the
active cart (`is_done = false`), from `handleProceedToCheckout`. -/
def goodOp (store : List Checkout) : CartOp → Bool
  | .advance cid step _ =>
      step == "payment" && store.all (fun c => c.id != cid || c.is_done == false)
  | _ => true

/-- A sequence of operations each of which obeys the call-site discipline
in the state it is applied to. -/
def goodOps (store : List Checkout) : List CartOp → Bool
  | [] => true
  | op :: rest => goodOp store op && goodOps (applyOp store op) rest

/-- Position of a step in the checkout pipeline
`added_to_cart → payment → completed`. -/
def stepRank (s : String) : Nat :=
  if s = "added_to_cart" then 0
  else if s = "payment" then 1
  else if s = "completed" then 2
  else 3

/-- The cart record invariant maintained under the call-site discipline:
`is_done` holds exactly on `completed` records and `last_step` is one of
the three pipeline steps. -/
def CartInv (store : List Checkout) : Prop :=
  ∀ c ∈ store, (c.is_done = true ↔ c.last_step = "completed")
    ∧ (c.last_step = "added_to_cart" ∨ c.last_step = "payment"
        ∨ c.last_step = "completed")

/-! ## Order history (`profile/page.tsx` lines 109-190) -/

/-- `getItemById` (lines 847-858 of `setup.ts`): a point lookup returning
`null` when no record exists. -/
def getItemById (itemsStore : List Item) (itemId : String) : Option Item :=
  itemsStore.find? fun it => it.id == itemId

/-- A derived order of the profile page: the grouping date, the hydrated
`(item, quantity)` entries and the computed total. -/
structure OrderView where
  date : String
  items : List (Item × Nat)
  total : Int
deriving DecidableEq, Repr

/-- Hydration of one completed checkout in `fetchOrders`: the item point
lookup, quantity defaulted by `checkout.quantity || 1`, `null` when the
item record no longer exists. -/
def hydrate (itemsStore : List Item) (c : Checkout) : Option (Item × Nat) :=
  match getItemById itemsStore c.item_id with
  | some it => some (it, if c.quantity == 0 then 1 else c.quantity)
  | none => none

/-- The distinct keys of a list in first-occurrence order, as iterating a
JavaScript object built by `reduce` visits them. -/
def firstKeys : List String → List String
  | [] => []
  | k :: ks => k :: firstKeys (ks.filter fun k2 => k2 != k)
termination_by l => l.length
decreasing_by
  exact Nat.lt_succ_of_le (List.length_filter_le _ _)

/-- `fetchOrders` (lines 109-190 of `profile/page.tsx`): take the user's
completed checkouts, group them by the calendar date of `updatedAt`
(`toLocaleDateString`, embedded as the abstract key function `dateKey`),
hydrate each group's items — dropping those whose Item record no longer
exists — and total `price * quantity` over the surviving entries. -/
def fetchOrders (dateKey : Int → String) (itemsStore : List Item)
    (checkoutStore : List Checkout) (userId : String) : List OrderView :=
  let checkouts := checkoutStore.filter
    (fun c => c.user_id == userId && c.is_done == true)
  let keys := firstKeys (checkouts.map fun c => dateKey c.updatedAt)
  keys.map fun k =>
    let group := checkouts.filter fun c => dateKey c.updatedAt == k
    let validItems := group.filterMap (hydrate itemsStore)
    { date := k, items := validItems,
      total := (validItems.map fun p => p.1.price * (p.2 : Int)).sum }

/-! ## Concrete sample records used to instantiate the verified statements -/

/-- A sample item. -/
def itemA : Item :=
  { id := "a", name := [0x61], price := 10, category_id := "cat1", createdAt := 100 }

/-- A sample item in the same category as `itemA`. -/
def itemB : Item :=
  { id := "b", name := [0x62], price := 5, category_id := "cat1", createdAt := 200 }

/-- A sample item in another category. -/
def itemC : Item :=
  { id := "c", name := [0x63], price := 7, category_id := "cat2", createdAt := 300 }

/-- A sample active cart line item. -/
def checkoutA : Checkout :=
  { id := "k1", user_id := "u1", item_id := "a", quantity := 2, is_done := false,
    last_step := "added_to_cart", reason := "", createdAt := 10, updatedAt := 10 }

/-- A sample completed cart line item for item `itemA`. -/
def checkoutDone : Checkout :=
  { id := "k2", user_id := "u1", item_id := "a", quantity := 2, is_done := true,
    last_step := "completed", reason := "", createdAt := 10, updatedAt := 20 }

/-! ## Helper lemmas -/

theorem sortLe_total (sb : SortBy) (a b : Item) :
    sortLe sb a b = true ∨ sortLe sb b a = true := by
  cases sb <;> simp [sortLe] <;> omega

theorem sortLe_trans (sb : SortBy) (a b c : Item) :
    sortLe sb a b = true → sortLe sb b c = true → sortLe sb a c = true := by
  cases sb <;> simp [sortLe] <;> omega

theorem sortItems_perm (sb : SortBy) (l : List Item) : List.Perm (sortItems sb l) l :=
  List.mergeSort_perm l _

theorem sortItems_pairwise (sb : SortBy) (l : List Item) :
    (sortItems sb l).Pairwise (fun a b => sortLe sb a b = true) := by
  have h := @List.sorted_mergeSort Item (sortLe sb)
    (fun a b c hab hbc => sortLe_trans sb a b c hab hbc)
    (fun a b => by
      rcases sortLe_total sb a b with h | h <;> simp [h]) l
  exact h

theorem nodup_ids_filter {store : List Item} (p : Item → Bool)
    (h : (store.map Item.id).Nodup) : ((store.filter p).map Item.id).Nodup :=
  ((store.filter_sublist (p := p)).map Item.id).nodup h

theorem nodup_ids_sortItems {l : List Item} (sb : SortBy)
    (h : (l.map Item.id).Nodup) : ((sortItems sb l).map Item.id).Nodup :=
  ((sortItems_perm sb l).map Item.id).nodup_iff.mpr h

theorem findIdx_id_at {l : List Item} (hnd : (l.map Item.id).Nodup)
    {j : Nat} (hj : j < l.length) :
    l.findIdx? (fun it => it.id == (l.get ⟨j, hj⟩).id) = some j := by
  rw [List.findIdx?_eq_some_iff_getElem]
  refine ⟨hj, by simp, ?_⟩
  intro i hij
  simp only [beq_iff_eq, Bool.not_eq_true, decide_eq_false_iff_not]
  intro hcontra
  have hi : i < l.length := Nat.lt_trans hij hj
  have hmap : (l.map Item.id).get ⟨i, by simpa using hi⟩
      = (l.map Item.id).get ⟨j, by simpa using hj⟩ := by
    simpa using hcontra
  have := (hnd.getElem_inj_iff).mp hmap
  omega

theorem find_id_of_mem {l : List Item} (hnd : (l.map Item.id).Nodup)
    {x : Item} (hx : x ∈ l) :
    l.find? (fun d => d.id == x.id) = some x := by
  cases hf : l.find? (fun d => d.id == x.id) with
  | none =>
    rw [List.find?_eq_none] at hf
    exact absurd (by simp : (x.id == x.id) = true) (hf x hx)
  | some y =>
    have hy := List.find?_some hf
    have hmem : y ∈ l := List.mem_of_find?_eq_some hf
    have : y = x := List.inj_on_of_nodup_map hnd hmem hx (by simpa using hy)
    rw [this]

theorem getItemsByCategory_items (store : List Item) (catId : String) (sb : SortBy)
    (k : Nat) (cursor : Option Item) :
    (getItemsByCategory store catId sb k cursor).items
      = ((sortItems sb (store.filter (fun it => it.category_id == catId))).drop
          (startIndexOf (sortItems sb (store.filter (fun it => it.category_id == catId)))
            cursor)).take k := rfl

theorem getItemsByCategory_lastVisible_eq (store : List Item) (catId : String)
    (sb : SortBy) (k : Nat) (cursor : Option Item) :
    (getItemsByCategory store catId sb k cursor).lastVisible
      = match (getItemsByCategory store catId sb k cursor).items.getLast? with
        | some last => (store.filter (fun it => it.category_id == catId)).find?
            (fun d => d.id == last.id)
        | none => none := rfl

theorem getItemsByCategory_lastVisible_empty (store : List Item) (catId : String)
    (sb : SortBy) (k : Nat) (cursor : Option Item)
    (h : (getItemsByCategory store catId sb k cursor).items = []) :
    (getItemsByCategory store catId sb k cursor).lastVisible = none := by
  rw [getItemsByCategory_lastVisible_eq, h]
  rfl

theorem page_getLast {l : List Item} {i k : Nat} (hne : (l.drop i).take k ≠ []) :
    ∃ hlt : i + ((l.drop i).take k).length - 1 < l.length,
      ((l.drop i).take k).getLast?
        = some (l.get ⟨i + ((l.drop i).take k).length - 1, hlt⟩) := by
  have hm : 0 < ((l.drop i).take k).length := List.length_pos.mpr hne
  have hmk : ((l.drop i).take k).length ≤ k := List.length_take_le _ _
  have hml : ((l.drop i).take k).length ≤ l.length - i := by
    have := List.length_take_le' k (l.drop i)
    simpa using this
  have hil : i < l.length := by
    by_contra hc
    have : l.drop i = [] := List.drop_of_length_le (by omega)
    simp [this] at hne
  refine ⟨by omega, ?_⟩
  rw [List.getLast?_eq_getElem?]
  have hlt' : ((l.drop i).take k).length - 1 < ((l.drop i).take k).length := by omega
  rw [List.getElem?_eq_getElem hlt']
  congr 1
  rw [List.getElem_take, List.getElem_drop]
  congr 1
  omega

theorem startIndexOf_at {l : List Item} (hnd : (l.map Item.id).Nodup)
    {j : Nat} (hj : j < l.length) :
    startIndexOf l (some (l.get ⟨j, hj⟩)) = j + 1 := by
  have h := findIdx_id_at hnd hj
  simp only [List.get_eq_getElem] at h
  simp [startIndexOf, h]

theorem getItemsByCategory_lastVisible_ne (store : List Item) (catId : String)
    (sb : SortBy) (k : Nat) (cursor : Option Item)
    (hnd : (store.map Item.id).Nodup)
    (hne : (getItemsByCategory store catId sb k cursor).items ≠ []) :
    (getItemsByCategory store catId sb k cursor).lastVisible
      = (getItemsByCategory store catId sb k cursor).items.getLast? := by
  have hnd' : ((store.filter (fun it => it.category_id == catId)).map Item.id).Nodup :=
    nodup_ids_filter _ hnd
  obtain ⟨last, hlast⟩ : ∃ last,
      (getItemsByCategory store catId sb k cursor).items.getLast? = some last := by
    cases hgl : (getItemsByCategory store catId sb k cursor).items.getLast? with
    | none => exact absurd (List.getLast?_eq_none_iff.mp hgl) hne
    | some a => exact ⟨a, rfl⟩
  have hmem0 : last ∈ (getItemsByCategory store catId sb k cursor).items := by
    obtain ⟨ys, hys⟩ := List.getLast?_eq_some_iff.mp hlast
    rw [hys]
    simp
  have hmem : last ∈ store.filter (fun it => it.category_id == catId) := by
    rw [getItemsByCategory_items] at hmem0
    exact (sortItems_perm sb _).mem_iff.mp
      (List.mem_of_mem_drop (List.mem_of_mem_take hmem0))
  rw [getItemsByCategory_lastVisible_eq, hlast]
  exact find_id_of_mem hnd' hmem

theorem take_min_eq {α : Type} {l : List α} (k : Nat) :
    l.take k = l.take ((l.take k).length) := by
  rw [List.length_take]
  rcases Nat.le_total k l.length with h | h
  · rw [Nat.min_eq_left h]
  · rw [Nat.min_eq_right h, List.take_of_length_le h, List.take_length]

theorem pages_append {α : Type} {l : List α} (i k : Nat) :
    (l.drop i).take k ++ (l.drop (i + ((l.drop i).take k).length)).take k
      = (l.drop i).take (((l.drop i).take k).length + k) := by
  have h1 : l.drop (i + ((l.drop i).take k).length)
      = (l.drop i).drop (((l.drop i).take k).length) :=
    (List.drop_drop _ _ _).symm
  rw [h1, List.take_add]
  congr 1
  exact take_min_eq k

theorem pairwise_slice {α : Type} {l : List α} (R : α → α → Prop)
    (h : l.Pairwise R) (i k : Nat) : ((l.drop i).take k).Pairwise R :=
  List.Pairwise.sublist ((List.take_sublist _ _).trans (List.drop_sublist _ _)) h

theorem cross_pages_rel {α : Type} {l : List α} {R : α → α → Prop}
    (h : l.Pairwise R) (i k : Nat) :
    ∀ x ∈ (l.drop i).take k,
      ∀ y ∈ (l.drop (i + ((l.drop i).take k).length)).take k, R x y := by
  have happ : ((l.drop i).take k
      ++ (l.drop (i + ((l.drop i).take k).length)).take k).Pairwise R := by
    rw [pages_append]
    exact pairwise_slice R h i _
  exact fun x hx y hy => (List.pairwise_append.mp happ).2.2 x hx y hy

theorem next_startIndex {l : List Item} (hnd : (l.map Item.id).Nodup) {i k : Nat}
    (hne : (l.drop i).take k ≠ []) :
    ∃ last, ((l.drop i).take k).getLast? = some last ∧
      startIndexOf l (some last) = i + ((l.drop i).take k).length := by
  obtain ⟨hlt, hlast⟩ := page_getLast hne
  refine ⟨_, hlast, ?_⟩
  rw [startIndexOf_at hnd hlt]
  have hm : 0 < ((l.drop i).take k).length := List.length_pos.mpr hne
  omega

/-! ## The claims -/

/-- C1: a `listItems` call with a present `categoryId` (`getAllItems`
delegating to `getItemsByCategory`) returns the slice
`[cursorIndex+1, cursorIndex+1+pageSize)` of the full set of items whose
`category_id` equals `categoryId`, sorted in memory by the requested key
(price ascending for `price_asc`, descending for `price_desc`, parsed
`createdAt` descending for `newest`); consequently the sort key is
monotone within the returned page and from the returned page to the next
page fetched through the returned cursor. -/
theorem claim_C1 (store : List Item) (catId : String) (sb : SortBy) (k : Nat)
    (cursor : Option Item) (hnd : (store.map Item.id).Nodup) :
    getAllItems store (some catId) sb k cursor
      = .ok (getItemsByCategory store catId sb k cursor)
    ∧ (getItemsByCategory store catId sb k cursor).items
      = ((sortItems sb (store.filter (fun it => it.category_id == catId))).drop
          (startIndexOf
            (sortItems sb (store.filter (fun it => it.category_id == catId)))
            cursor)).take k
    ∧ (getItemsByCategory store catId sb k cursor).items.Pairwise
        (fun a b => sortLe sb a b = true)
    ∧ ∀ x ∈ (getItemsByCategory store catId sb k cursor).items,
        ∀ y ∈ (getItemsByCategory store catId sb k
            (getItemsByCategory store catId sb k cursor).lastVisible).items,
          sortLe sb x y = true := by
  refine ⟨rfl, getItemsByCategory_items store catId sb k cursor, ?_, ?_⟩
  · rw [getItemsByCategory_items]
    exact pairwise_slice _ (sortItems_pairwise sb _) _ _
  · by_cases hne : (getItemsByCategory store catId sb k cursor).items = []
    · intro x hx
      rw [hne] at hx
      exact absurd hx (List.not_mem_nil x)
    · have hnds : ((sortItems sb
          (store.filter (fun it => it.category_id == catId))).map Item.id).Nodup :=
        nodup_ids_sortItems sb (nodup_ids_filter _ hnd)
      have hne' : ((sortItems sb (store.filter (fun it => it.category_id == catId))).drop
          (startIndexOf
            (sortItems sb (store.filter (fun it => it.category_id == catId)))
            cursor)).take k ≠ [] := by
        rw [← getItemsByCategory_items]
        exact hne
      obtain ⟨last, hlast, hstart⟩ := next_startIndex hnds hne'
      have hlv : (getItemsByCategory store catId sb k cursor).lastVisible = some last := by
        rw [getItemsByCategory_lastVisible_ne store catId sb k cursor hnd hne,
          getItemsByCategory_items, hlast]
      intro x hx y hy
      rw [getItemsByCategory_items] at hx
      rw [hlv, getItemsByCategory_items, hstart] at hy
      exact cross_pages_rel (sortItems_pairwise sb _) _ _ x hx y hy

/-- Witness for C1 at a concrete store. -/
theorem claim_C1_witness :
    (([itemA, itemC].map Item.id).Nodup) ∧
    (getItemsByCategory [itemA, itemC] "cat1" SortBy.price_asc 1 none).items
      = ((sortItems SortBy.price_asc
            ([itemA, itemC].filter (fun it => it.category_id == "cat1"))).drop
          (startIndexOf
            (sortItems SortBy.price_asc
              ([itemA, itemC].filter (fun it => it.category_id == "cat1")))
            none)).take 1 :=
  ⟨by decide,
    (claim_C1 [itemA, itemC] "cat1" SortBy.price_asc 1 none (by decide)).2.1⟩

theorem collectPages_drop (store : List Item) (catId : String) (sb : SortBy) (k : Nat)
    (hk : 1 ≤ k) (hnd : (store.map Item.id).Nodup) :
    ∀ (fuel : Nat) (cursor : Option Item),
      (sortItems sb (store.filter (fun it => it.category_id == catId))).length
        - startIndexOf
            (sortItems sb (store.filter (fun it => it.category_id == catId))) cursor
        < fuel →
      collectPages store catId sb k fuel cursor
        = (sortItems sb (store.filter (fun it => it.category_id == catId))).drop
            (startIndexOf
              (sortItems sb (store.filter (fun it => it.category_id == catId)))
              cursor) := by
  intro fuel
  induction fuel with
  | zero =>
    intro cursor h
    omega
  | succ fuel ih =>
    intro cursor h
    have hunfold : collectPages store catId sb k (fuel + 1) cursor
        = (if (getItemsByCategory store catId sb k cursor).items.isEmpty then []
           else (getItemsByCategory store catId sb k cursor).items
             ++ collectPages store catId sb k fuel
                  (getItemsByCategory store catId sb k cursor).lastVisible) := rfl
    by_cases hemp : (getItemsByCategory store catId sb k cursor).items = []
    · rw [hunfold, hemp]
      have hdrop : (sortItems sb (store.filter (fun it => it.category_id == catId))).drop
          (startIndexOf
            (sortItems sb (store.filter (fun it => it.category_id == catId)))
            cursor) = [] := by
        have := hemp
        rw [getItemsByCategory_items] at this
        rcases List.take_eq_nil_iff.mp this with h1 | h1
        · omega
        · exact h1
      rw [hdrop]
      rfl
    · have hnds : ((sortItems sb
          (store.filter (fun it => it.category_id == catId))).map Item.id).Nodup :=
        nodup_ids_sortItems sb (nodup_ids_filter _ hnd)
      have hemp' : ((sortItems sb (store.filter (fun it => it.category_id == catId))).drop
          (startIndexOf
            (sortItems sb (store.filter (fun it => it.category_id == catId)))
            cursor)).take k ≠ [] := by
        rw [← getItemsByCategory_items]
        exact hemp
      obtain ⟨last, hlast, hstart⟩ := next_startIndex hnds hemp'
      have hlv : (getItemsByCategory store catId sb k cursor).lastVisible = some last := by
        rw [getItemsByCategory_lastVisible_ne store catId sb k cursor hnd hemp,
          getItemsByCategory_items, hlast]
      have hlt : startIndexOf
            (sortItems sb (store.filter (fun it => it.category_id == catId))) cursor
          < (sortItems sb (store.filter (fun it => it.category_id == catId))).length := by
        have hd : (sortItems sb (store.filter (fun it => it.category_id == catId))).drop
            (startIndexOf
              (sortItems sb (store.filter (fun it => it.category_id == catId)))
              cursor) ≠ [] :=
          List.ne_nil_of_take_ne_nil hemp'
        exact List.length_lt_of_drop_ne_nil hd
      have hpos : 0 < (((sortItems sb
          (store.filter (fun it => it.category_id == catId))).drop
            (startIndexOf
              (sortItems sb (store.filter (fun it => it.category_id == catId)))
              cursor)).take k).length := List.length_pos.mpr hemp'
      have hrec := ih (some last) (by rw [hstart]; omega)
      rw [hunfold, if_neg (by simpa using hemp), hlv, hrec, hstart,
        getItemsByCategory_items]
      rw [← List.drop_drop]
      nth_rewrite 1 [take_min_eq k]
      exact List.take_append_drop _ _

theorem collectPages_some (store : List Item) (catId : String) (sb : SortBy) (k : Nat)
    (hk : 1 ≤ k) (hnd : (store.map Item.id).Nodup) :
    collectPages store catId sb k (store.length + 1) none
      = sortItems sb (store.filter (fun it => it.category_id == catId)) := by
  have hlen : (sortItems sb (store.filter (fun it => it.category_id == catId))).length
      ≤ store.length := by
    rw [(sortItems_perm sb _).length_eq]
    exact List.length_filter_le _ _
  have h0 : startIndexOf
      (sortItems sb (store.filter (fun it => it.category_id == catId))) none = 0 := rfl
  have h := collectPages_drop store catId sb k hk hnd (store.length + 1) none
    (by rw [h0]; omega)
  rw [h, h0, List.drop_zero]

theorem collectPagesAll_some_eq (store : List Item) (cid : String) (sb : SortBy)
    (k : Nat) : ∀ (fuel : Nat) (cursor : Option Item),
    collectPagesAll store (some cid) sb k fuel cursor
      = collectPages store cid sb k fuel cursor
  | 0, _ => rfl
  | fuel + 1, cursor => by
    show (if (getItemsByCategory store cid sb k cursor).items.isEmpty then []
        else (getItemsByCategory store cid sb k cursor).items
          ++ collectPagesAll store (some cid) sb k fuel
              (getItemsByCategory store cid sb k cursor).lastVisible) = _
    rw [collectPagesAll_some_eq store cid sb k fuel
      (getItemsByCategory store cid sb k cursor).lastVisible]
    rfl

theorem getAllItems_none_eq (store : List Item) (sb : SortBy) (k : Nat)
    (cursor : Option Item) :
    getAllItems store none sb k cursor
      = .ok (PageResult.mk
          (((sortItems sb store).drop
            (startIndexOf (sortItems sb store) cursor)).take k)
          ((((sortItems sb store).drop
            (startIndexOf (sortItems sb store) cursor)).take k).getLast?)) := by
  cases cursor with
  | none => rfl
  | some cur =>
    cases hidx : (sortItems sb store).findIdx? (fun it => it.id == cur.id) with
    | none => simp [getAllItems, queryItems, startIndexOf, hidx]
    | some i => simp [getAllItems, queryItems, startIndexOf, hidx]

theorem collectPagesAll_none_drop (store : List Item) (sb : SortBy) (k : Nat)
    (hk : 1 ≤ k) (hnd : (store.map Item.id).Nodup) :
    ∀ (fuel : Nat) (cursor : Option Item),
      (sortItems sb store).length - startIndexOf (sortItems sb store) cursor < fuel →
      collectPagesAll store none sb k fuel cursor
        = (sortItems sb store).drop (startIndexOf (sortItems sb store) cursor) := by
  intro fuel
  induction fuel with
  | zero =>
    intro cursor h
    omega
  | succ fuel ih =>
    intro cursor h
    have hunfold : collectPagesAll store none sb k (fuel + 1) cursor
        = (if (((sortItems sb store).drop
              (startIndexOf (sortItems sb store) cursor)).take k).isEmpty then []
           else ((sortItems sb store).drop
               (startIndexOf (sortItems sb store) cursor)).take k
             ++ collectPagesAll store none sb k fuel
                 ((((sortItems sb store).drop
                     (startIndexOf (sortItems sb store) cursor)).take k).getLast?)) := by
      show (match getAllItems store none sb k cursor with
        | .error _ => []
        | .ok r =>
          if r.items.isEmpty then []
          else r.items ++ collectPagesAll store none sb k fuel r.lastVisible) = _
      rw [getAllItems_none_eq]
    by_cases hemp : ((sortItems sb store).drop
        (startIndexOf (sortItems sb store) cursor)).take k = []
    · rw [hunfold, if_pos (by simpa using hemp)]
      rcases List.take_eq_nil_iff.mp hemp with h1 | h1
      · omega
      · rw [h1]
    · have hnds : ((sortItems sb store).map Item.id).Nodup :=
        nodup_ids_sortItems sb hnd
      obtain ⟨last, hlast, hstart⟩ := next_startIndex hnds hemp
      have hlt : startIndexOf (sortItems sb store) cursor
          < (sortItems sb store).length :=
        List.length_lt_of_drop_ne_nil (List.ne_nil_of_take_ne_nil hemp)
      have hpos : 0 < (((sortItems sb store).drop
          (startIndexOf (sortItems sb store) cursor)).take k).length :=
        List.length_pos.mpr hemp
      have hrec := ih (some last) (by rw [hstart]; omega)
      rw [hunfold, if_neg (by simpa using hemp), hlast, hrec, hstart]
      rw [← List.drop_drop]
      nth_rewrite 1 [take_min_eq k]
      exact List.take_append_drop _ _

/-- C2: for every valid `(categoryId, sortBy, pageSize)` — the category
filter being optional — over a fixed store of items with distinct ids,
concatenating the successive pages obtained by passing each returned
cursor into the next `listItems` call yields exactly the single sorted
fetch of all matching items: same order, no item duplicated, none
omitted. -/
theorem claim_C2 (store : List Item) (categoryId : Option String) (sb : SortBy)
    (k : Nat) (hk : 1 ≤ k) (hnd : (store.map Item.id).Nodup) :
    collectPagesAll store categoryId sb k (store.length + 1) none
      = sortItems sb (matchingItems store categoryId)
    ∧ ((collectPagesAll store categoryId sb k
          (store.length + 1) none).map Item.id).Nodup := by
  cases categoryId with
  | some cid =>
    have h := collectPages_some store cid sb k hk hnd
    rw [collectPagesAll_some_eq store cid sb k, h]
    exact ⟨rfl, nodup_ids_sortItems sb (nodup_ids_filter _ hnd)⟩
  | none =>
    have hlen : (sortItems sb store).length ≤ store.length := by
      rw [(sortItems_perm sb store).length_eq]
    have h0 : startIndexOf (sortItems sb store) none = 0 := rfl
    have h := collectPagesAll_none_drop store sb k hk hnd (store.length + 1) none
      (by rw [h0]; omega)
    rw [h, h0, List.drop_zero]
    exact ⟨rfl, nodup_ids_sortItems sb hnd⟩

/-- Witness for C2 at a concrete store, exercising the category-absent
path. -/
theorem claim_C2_witness :
    (1 ≤ 1 ∧ ([itemA, itemC].map Item.id).Nodup) ∧
    collectPagesAll [itemA, itemC] none SortBy.price_asc 1
        ([itemA, itemC].length + 1) none
      = sortItems SortBy.price_asc (matchingItems [itemA, itemC] none) :=
  ⟨⟨by decide, by decide⟩,
    (claim_C2 [itemA, itemC] none SortBy.price_asc 1 (by decide) (by decide)).1⟩

/-- C3 counterexample: with `categoryId` absent, a store holding a single
item and `pageSize = 2`, the page has fewer than `pageSize` items yet the
returned `nextCursor` is present (the last item), not absent as the claim
states. -/
theorem claim_C3_counterexample :
    getAllItems [itemA] none SortBy.newest 2 none
      = .ok { items := [itemA], lastVisible := some itemA }
    ∧ ([itemA] : List Item).length < 2
    ∧ (some itemA ≠ (none : Option Item)) := by
  have hsort : sortItems SortBy.newest [itemA] = [itemA] := by
    simp [sortItems]
  refine ⟨?_, by decide, by decide⟩
  show Except.ok
      ({ items := (sortItems SortBy.newest [itemA]).take 2,
         lastVisible := ((sortItems SortBy.newest [itemA]).take 2).getLast? } : PageResult)
    = _
  rw [hsort]
  rfl

/-- C3 (amended): with `categoryId` absent, `getAllItems` succeeds, the
returned `nextCursor` is the last item of the returned page, and it is
absent exactly when the returned page is empty — not already when the page
is merely shorter than `pageSize`; the end-of-data signal is the page
length compared against `pageSize` by the caller (`fetchItems`). -/
theorem claim_C3 (store : List Item) (sb : SortBy) (k : Nat) (cursor : Option Item) :
    ∃ r : PageResult, getAllItems store none sb k cursor = .ok r
      ∧ r.lastVisible = r.items.getLast?
      ∧ (r.lastVisible = none ↔ r.items = []) := by
  refine ⟨_, rfl, rfl, ?_⟩
  exact List.getLast?_eq_none_iff

/-- C10: a category-scoped call whose cursor id does not occur in the
current sorted category result set does not fail: it returns the first
`pageSize` items of the sorted list, and an empty page always comes with
an absent `nextCursor`. -/
theorem claim_C10 (store : List Item) (catId : String) (sb : SortBy) (k : Nat)
    (x : Item)
    (hx : x.id ∉ (sortItems sb
      (store.filter (fun it => it.category_id == catId))).map Item.id) :
    (getItemsByCategory store catId sb k (some x)).items
      = (sortItems sb (store.filter (fun it => it.category_id == catId))).take k
    ∧ ((getItemsByCategory store catId sb k (some x)).items = []
        → (getItemsByCategory store catId sb k (some x)).lastVisible = none) := by
  have hidx : (sortItems sb (store.filter (fun it => it.category_id == catId))).findIdx?
      (fun it => it.id == x.id) = none := by
    rw [List.findIdx?_eq_none_iff]
    intro y hy
    have : y.id ≠ x.id := by
      intro hcontra
      exact hx (hcontra ▸ List.mem_map_of_mem Item.id hy)
    simpa using this
  have hstart : startIndexOf
      (sortItems sb (store.filter (fun it => it.category_id == catId))) (some x) = 0 := by
    simp [startIndexOf, hidx]
  constructor
  · rw [getItemsByCategory_items, hstart, List.drop_zero]
  · exact getItemsByCategory_lastVisible_empty store catId sb k (some x)

/-- Witness for C10: cursor item `itemB` is not in category `cat1` of a
store whose `cat1` slice is `[itemA]`. -/
theorem claim_C10_witness :
    (itemB.id ∉ (sortItems SortBy.price_asc
      ([itemA, itemC].filter (fun it => it.category_id == "cat1"))).map Item.id) ∧
    (getItemsByCategory [itemA, itemC] "cat1" SortBy.price_asc 1 (some itemB)).items
      = (sortItems SortBy.price_asc
          ([itemA, itemC].filter (fun it => it.category_id == "cat1"))).take 1 := by
  have hx : itemB.id ∉ (sortItems SortBy.price_asc
      ([itemA, itemC].filter (fun it => it.category_id == "cat1"))).map Item.id := by
    simp [sortItems, itemA, itemB, itemC]
  exact ⟨hx, (claim_C10 [itemA, itemC] "cat1" SortBy.price_asc 1 itemB hx).1⟩

/-- C8: the store reports `missingIndex` (failed-precondition) for a
combined category filter + order-by query, yet `getAllItems` with a
present `categoryId` never issues that query: it succeeds by the
in-memory-sorted fallback of `getItemsByCategory`, so the error is never
surfaced to the caller of `listItems`. -/
theorem claim_C8 (store : List Item) (catId : String) (sb : SortBy) (k : Nat)
    (cursor : Option Item) :
    queryItems store (some catId) (some sb) = .error .missingIndex
    ∧ getAllItems store (some catId) sb k cursor
        = .ok (getItemsByCategory store catId sb k cursor)
    ∧ (getItemsByCategory store catId sb k cursor).items
        = ((sortItems sb (store.filter (fun it => it.category_id == catId))).drop
            (startIndexOf
              (sortItems sb (store.filter (fun it => it.category_id == catId)))
              cursor)).take k :=
  ⟨rfl, rfl, rfl⟩

/-- C9: `updateCartItemQuantity` writes only `quantity` and `updatedAt` of
the addressed record; its identity, state and creation fields, and every
other record of the store, are unchanged. -/
theorem claim_C9 (store : List Checkout) (cid : String) (q : Nat) (now : Int) :
    (updateCartItemQuantity store cid q now).length = store.length
    ∧ ∀ j (hj : j < store.length)
        (hj2 : j < (updateCartItemQuantity store cid q now).length),
        ((updateCartItemQuantity store cid q now).get ⟨j, hj2⟩).id
            = (store.get ⟨j, hj⟩).id
        ∧ ((updateCartItemQuantity store cid q now).get ⟨j, hj2⟩).user_id
            = (store.get ⟨j, hj⟩).user_id
        ∧ ((updateCartItemQuantity store cid q now).get ⟨j, hj2⟩).item_id
            = (store.get ⟨j, hj⟩).item_id
        ∧ ((updateCartItemQuantity store cid q now).get ⟨j, hj2⟩).is_done
            = (store.get ⟨j, hj⟩).is_done
        ∧ ((updateCartItemQuantity store cid q now).get ⟨j, hj2⟩).last_step
            = (store.get ⟨j, hj⟩).last_step
        ∧ ((updateCartItemQuantity store cid q now).get ⟨j, hj2⟩).reason
            = (store.get ⟨j, hj⟩).reason
        ∧ ((updateCartItemQuantity store cid q now).get ⟨j, hj2⟩).createdAt
            = (store.get ⟨j, hj⟩).createdAt
        ∧ ((store.get ⟨j, hj⟩).id ≠ cid →
            (updateCartItemQuantity store cid q now).get ⟨j, hj2⟩ = store.get ⟨j, hj⟩)
        ∧ ((store.get ⟨j, hj⟩).id = cid →
            ((updateCartItemQuantity store cid q now).get ⟨j, hj2⟩).quantity = q
            ∧ ((updateCartItemQuantity store cid q now).get ⟨j, hj2⟩).updatedAt = now) := by
  refine ⟨by simp [updateCartItemQuantity], ?_⟩
  intro j hj hj2
  have hget : (updateCartItemQuantity store cid q now).get ⟨j, hj2⟩
      = (fun c : Checkout =>
          if c.id == cid then { c with quantity := q, updatedAt := now } else c)
        (store.get ⟨j, hj⟩) := by
    simp [updateCartItemQuantity]
  rw [hget]
  simp only [List.get_eq_getElem]
  by_cases hid : (store.get ⟨j, hj⟩).id = cid
  · simp only [List.get_eq_getElem] at hid
    simp [hid]
  · simp only [List.get_eq_getElem] at hid
    simp [hid]

/-- Witness for C9 at a concrete store. -/
theorem claim_C9_witness :
    ∃ h2 : 0 < (updateCartItemQuantity [checkoutA] "k1" 5 99).length,
      ((updateCartItemQuantity [checkoutA] "k1" 5 99).get ⟨0, h2⟩).quantity = 5
      ∧ ((updateCartItemQuantity [checkoutA] "k1" 5 99).get ⟨0, h2⟩).user_id = "u1" := by
  have h := (claim_C9 [checkoutA] "k1" 5 99).2 0 (by decide) (by decide)
  exact ⟨by decide, (h.2.2.2.2.2.2.2.2 (by decide)).1, by
    have := h.2.1
    rw [this]
    decide⟩

/-- C5: with no existing active line item of user `u` for item `i`,
`addToCart(u, i, q)` followed by `activeCart(u)` (`getCartItems`) yields
exactly one line item with `item_id = i`, carrying `quantity = q`,
`last_step = "added_to_cart"`, `is_done = false`, an empty `reason` and
both timestamps equal to the creation time. -/
theorem claim_C5 (store : List Checkout) (newId u i : String) (q : Nat) (now : Int)
    (hq : 1 ≤ q)
    (hnone : ∀ c ∈ getCartItems store u, c.item_id ≠ i) :
    ((getCartItems (addToCart store newId u i q now) u).filter
        (fun c => c.item_id == i)).length = 1
    ∧ ∀ c ∈ getCartItems (addToCart store newId u i q now) u, c.item_id = i →
        c.quantity = q ∧ c.last_step = "added_to_cart" ∧ c.is_done = false
        ∧ c.reason = "" ∧ c.createdAt = now ∧ c.updatedAt = now := by
  have happ : getCartItems (addToCart store newId u i q now) u
      = getCartItems store u ++
        [({ id := newId, user_id := u, item_id := i, quantity := q,
            is_done := false, last_step := "added_to_cart", reason := "",
            createdAt := now, updatedAt := now } : Checkout)] := by
    unfold getCartItems addToCart
    rw [List.filter_append]
    congr 1
    simp
  constructor
  · rw [happ, List.filter_append]
    have h1 : (getCartItems store u).filter (fun c => c.item_id == i) = [] := by
      rw [List.filter_eq_nil_iff]
      intro c hc
      simpa using hnone c hc
    rw [h1]
    simp
  · intro c hc hcid
    rw [happ] at hc
    rcases List.mem_append.mp hc with hc | hc
    · exact absurd hcid (hnone c hc)
    · have hc' : c =
          ({ id := newId, user_id := u, item_id := i, quantity := q,
             is_done := false, last_step := "added_to_cart", reason := "",
             createdAt := now, updatedAt := now } : Checkout) := by
        simpa using hc
      subst hc'
      exact ⟨rfl, rfl, rfl, rfl, rfl, rfl⟩

/-- Witness for C5 at the empty store. -/
theorem claim_C5_witness :
    (1 ≤ 2 ∧ ∀ c ∈ getCartItems [] "u1", c.item_id ≠ "a")
    ∧ ((getCartItems (addToCart [] "k9" "u1" "a" 2 5) "u1").filter
        (fun c => c.item_id == "a")).length = 1 :=
  ⟨⟨by decide, by decide⟩,
    (claim_C5 [] "k9" "u1" "a" 2 5 (by decide) (by decide)).1⟩

/-- C4 counterexample: `updateCheckoutStep` takes an arbitrary step string
and guards nothing, so a sequence of the listed operations can set
`is_done = true` while `last_step = "payment"` (complete then advance),
and can move `last_step` backward from `payment` to `added_to_cart`. -/
theorem claim_C4_counterexample :
    (∃ c ∈ applyOps [] [CartOp.add "c1" "u" "i" 1 0, CartOp.complete "c1" 1,
        CartOp.advance "c1" "payment" 2], c.is_done = true ∧ c.last_step ≠ "completed")
    ∧ (∃ c1 ∈ applyOps [] [CartOp.add "c1" "u" "i" 1 0, CartOp.advance "c1" "payment" 1],
        ∃ c2 ∈ applyOps [] [CartOp.add "c1" "u" "i" 1 0, CartOp.advance "c1" "payment" 1,
          CartOp.advance "c1" "added_to_cart" 2],
          c1.id = c2.id ∧ stepRank c2.last_step < stepRank c1.last_step) := by
  decide

theorem cartInv_applyOp {s : List Checkout} {op : CartOp}
    (hinv : CartInv s) (hop : goodOp s op = true) : CartInv (applyOp s op) := by
  cases op with
  | add newId userId itemId q now =>
    intro c hc
    rcases List.mem_append.mp hc with hc | hc
    · exact hinv c hc
    · have hc' : c =
          ({ id := newId, user_id := userId, item_id := itemId, quantity := q,
             is_done := false, last_step := "added_to_cart", reason := "",
             createdAt := now, updatedAt := now } : Checkout) := by
        simpa using hc
      subst hc'
      exact ⟨by simp, Or.inl rfl⟩
  | setQty cid q now =>
    intro c hc
    obtain ⟨c0, hc0, rfl⟩ := List.mem_map.mp hc
    by_cases h : c0.id == cid
    · simpa [h] using hinv c0 hc0
    · simpa [h] using hinv c0 hc0
  | advance cid step now =>
    intro c hc
    obtain ⟨c0, hc0, rfl⟩ := List.mem_map.mp hc
    obtain ⟨hstep, hall⟩ := Bool.and_eq_true_iff.mp hop
    have hstep' : step = "payment" := by simpa using hstep
    by_cases h : c0.id = cid
    · have hnd : c0.is_done = false := by
        have hb := List.all_eq_true.mp hall c0 hc0
        simpa [h] using hb
      subst hstep'
      simp [h, hnd]
    · simpa [h] using hinv c0 hc0
  | complete cid now =>
    intro c hc
    obtain ⟨c0, hc0, rfl⟩ := List.mem_map.mp hc
    by_cases h : c0.id == cid
    · simp [h]
    · simpa [h] using hinv c0 hc0

theorem rank_applyOp {s : List Checkout} {op : CartOp}
    (hinv : CartInv s) (hop : goodOp s op = true) :
    ∀ j (hj : j < s.length), ∃ hj2 : j < (applyOp s op).length,
      ((applyOp s op).get ⟨j, hj2⟩).id = (s.get ⟨j, hj⟩).id
      ∧ stepRank (s.get ⟨j, hj⟩).last_step
        ≤ stepRank ((applyOp s op).get ⟨j, hj2⟩).last_step := by
  intro j hj
  cases op with
  | add newId userId itemId q now =>
    simp only [applyOp, addToCart, List.get_eq_getElem, List.length_append,
      List.length_cons, List.length_nil]
    refine ⟨by omega, ?_⟩
    rw [List.getElem_append_left hj]
    exact ⟨rfl, Nat.le_refl _⟩
  | setQty cid q now =>
    simp only [applyOp, updateCartItemQuantity, List.get_eq_getElem, List.length_map]
    refine ⟨hj, ?_⟩
    simp only [List.getElem_map]
    by_cases h : (s.get ⟨j, hj⟩).id = cid <;>
      simp only [List.get_eq_getElem] at h <;> simp [h]
  | advance cid step now =>
    obtain ⟨hstep, hall⟩ := Bool.and_eq_true_iff.mp hop
    have hstep' : step = "payment" := by simpa using hstep
    subst hstep'
    simp only [applyOp, updateCheckoutStep, List.get_eq_getElem, List.length_map]
    refine ⟨hj, ?_⟩
    simp only [List.getElem_map]
    by_cases h : (s.get ⟨j, hj⟩).id = cid
    · simp only [List.get_eq_getElem] at h
      have hmem : s.get ⟨j, hj⟩ ∈ s := List.getElem_mem hj
      have hb := List.all_eq_true.mp hall _ hmem
      have hnd : (s.get ⟨j, hj⟩).is_done = false := by simpa [h] using hb
      have hiv := hinv _ hmem
      have hnc : (s.get ⟨j, hj⟩).last_step ≠ "completed" := by
        intro hcontra
        have hcd := hiv.1.mpr hcontra
        simp only [List.get_eq_getElem] at hcd hnd
        rw [hnd] at hcd
        exact Bool.false_ne_true hcd
      refine ⟨by simp [h], ?_⟩
      simp only [List.get_eq_getElem] at hiv hnc
      rcases hiv.2 with h2 | h2 | h2
      · simp [h, h2, stepRank]
      · simp [h, h2, stepRank]
      · exact absurd h2 hnc
    · simp only [List.get_eq_getElem] at h
      simp [h]
  | complete cid now =>
    simp only [applyOp, completeCheckout, List.get_eq_getElem, List.length_map]
    refine ⟨hj, ?_⟩
    simp only [List.getElem_map]
    by_cases h : (s.get ⟨j, hj⟩).id = cid
    · have hiv := hinv _ (List.getElem_mem hj)
      simp only [List.get_eq_getElem] at h hiv
      refine ⟨by simp [h], ?_⟩
      rcases hiv.2 with h2 | h2 | h2 <;> simp [h, h2, stepRank]
    · simp only [List.get_eq_getElem] at h
      simp [h]

theorem applyOps_append (s : List Checkout) :
    ∀ (ops rest : List CartOp),
      applyOps s (ops ++ rest) = applyOps (applyOps s ops) rest := by
  intro ops
  induction ops generalizing s with
  | nil => intro rest; rfl
  | cons op ops ih => intro rest; exact ih (applyOp s op) rest

theorem goodOps_append (s : List Checkout) :
    ∀ (ops rest : List CartOp),
      goodOps s (ops ++ rest) = (goodOps s ops && goodOps (applyOps s ops) rest) := by
  intro ops
  induction ops generalizing s with
  | nil => intro rest; rfl
  | cons op ops ih =>
    intro rest
    show (goodOp s op && goodOps (applyOp s op) (ops ++ rest)) = _
    rw [ih (applyOp s op) rest, ← Bool.and_assoc]
    rfl

theorem cartInv_applyOps : ∀ (ops : List CartOp) (s : List Checkout),
    CartInv s → goodOps s ops = true → CartInv (applyOps s ops)
  | [], _, hinv, _ => hinv
  | op :: rest, s, hinv, hgood => by
    obtain ⟨h1, h2⟩ := Bool.and_eq_true_iff.mp hgood
    exact cartInv_applyOps rest (applyOp s op) (cartInv_applyOp hinv h1) h2

theorem rank_applyOps : ∀ (ops : List CartOp) (s : List Checkout),
    CartInv s → goodOps s ops = true →
    ∀ j (hj : j < s.length), ∃ hj2 : j < (applyOps s ops).length,
      ((applyOps s ops).get ⟨j, hj2⟩).id = (s.get ⟨j, hj⟩).id
      ∧ stepRank (s.get ⟨j, hj⟩).last_step
        ≤ stepRank ((applyOps s ops).get ⟨j, hj2⟩).last_step
  | [], _, _, _ => fun j hj => ⟨hj, rfl, Nat.le_refl _⟩
  | op :: rest, s, hinv, hgood => by
    intro j hj
    obtain ⟨h1, h2⟩ := Bool.and_eq_true_iff.mp hgood
    obtain ⟨hj2, hid1, hrk1⟩ := rank_applyOp hinv h1 j hj
    obtain ⟨hj3, hid2, hrk2⟩ :=
      rank_applyOps rest (applyOp s op) (cartInv_applyOp hinv h1) h2 j hj2
    exact ⟨hj3, hid2.trans hid1, Nat.le_trans hrk1 hrk2⟩

/-- C4 (amended): under the discipline of the application's call sites —
`updateCheckoutStep` invoked only with `"payment"` and only on records
with `is_done = false` (`handleProceedToCheckout` maps over the active
cart) — every record reachable from the empty store satisfies
`is_done = true` exactly when `last_step = "completed"` (so `is_done`
only when completed), and along the operation sequence each record's
`last_step` rank in `added_to_cart → payment → completed` never
decreases. Without that discipline the raw operations admit backward
steps, see the counterexample. -/
theorem claim_C4 (ops rest : List CartOp)
    (hgood : goodOps [] (ops ++ rest) = true) :
    (∀ c ∈ applyOps [] (ops ++ rest), c.is_done = true ↔ c.last_step = "completed")
    ∧ ∀ j (hj : j < (applyOps [] ops).length),
        ∃ hj2 : j < (applyOps [] (ops ++ rest)).length,
          ((applyOps [] (ops ++ rest)).get ⟨j, hj2⟩).id
            = ((applyOps [] ops).get ⟨j, hj⟩).id
          ∧ stepRank ((applyOps [] ops).get ⟨j, hj⟩).last_step
            ≤ stepRank ((applyOps [] (ops ++ rest)).get ⟨j, hj2⟩).last_step := by
  have hinv0 : CartInv [] := fun c hc => absurd hc (List.not_mem_nil c)
  obtain ⟨h1, h2⟩ := Bool.and_eq_true_iff.mp ((goodOps_append [] ops rest) ▸ hgood)
  constructor
  · intro c hc
    exact (cartInv_applyOps (ops ++ rest) [] hinv0 hgood c hc).1
  · intro j hj
    obtain ⟨hj2, hid, hrk⟩ :=
      rank_applyOps rest (applyOps [] ops) (cartInv_applyOps ops [] hinv0 h1) h2 j hj
    rw [applyOps_append]
    exact ⟨hj2, hid, hrk⟩

/-- Witness for C4: a concrete good operation sequence. -/
theorem claim_C4_witness :
    (goodOps [] ([CartOp.add "c1" "u1" "a" 1 0] ++ [CartOp.advance "c1" "payment" 1])
      = true)
    ∧ ∀ c ∈ applyOps []
        ([CartOp.add "c1" "u1" "a" 1 0] ++ [CartOp.advance "c1" "payment" 1]),
        c.is_done = true ↔ c.last_step = "completed" :=
  ⟨by decide,
    (claim_C4 [CartOp.add "c1" "u1" "a" 1 0] [CartOp.advance "c1" "payment" 1]
      (by decide)).1⟩

theorem fst_hydrate (itemsStore : List Item) :
    ∀ grp : List Checkout,
      (grp.filterMap (hydrate itemsStore)).map Prod.fst
        = grp.filterMap (fun c => getItemById itemsStore c.item_id) := by
  intro grp
  induction grp with
  | nil => rfl
  | cons c grp ih =>
    cases hit : getItemById itemsStore c.item_id with
    | none =>
      rw [List.filterMap_cons, List.filterMap_cons]
      simp only [hydrate, hit]
      exact ih
    | some it =>
      rw [List.filterMap_cons, List.filterMap_cons]
      simp only [hydrate, hit]
      simp only [List.map_cons, ih]

theorem sum_hydrate (itemsStore : List Item) :
    ∀ grp : List Checkout, (∀ c ∈ grp, 1 ≤ c.quantity) →
      ((grp.filterMap (hydrate itemsStore)).map
          (fun p => p.1.price * (p.2 : Int))).sum
        = (grp.map (fun c =>
            match getItemById itemsStore c.item_id with
            | some it => it.price * (c.quantity : Int)
            | none => 0)).sum := by
  intro grp
  induction grp with
  | nil => intro _; rfl
  | cons c grp ih =>
    intro hq
    have hq' : ∀ x ∈ grp, 1 ≤ x.quantity := fun x hx => hq x (List.mem_cons_of_mem c hx)
    have hqc : (if c.quantity == 0 then 1 else c.quantity) = c.quantity := by
      have h1 := hq c (List.mem_cons_self c grp)
      have h0 : (c.quantity == 0) = false := by
        simp only [beq_eq_false_iff_ne]
        omega
      rw [h0]
      rfl
    cases hit : getItemById itemsStore c.item_id with
    | none =>
      rw [List.filterMap_cons, List.map_cons]
      simp only [hydrate, hit]
      rw [ih hq', List.sum_cons]
      omega
    | some it =>
      rw [List.filterMap_cons, List.map_cons]
      simp only [hydrate, hit, hqc]
      rw [List.map_cons, List.sum_cons, List.sum_cons, ih hq']

/-- C6: every order derived by `fetchOrders` totals `price × quantity` over
its grouped completed line items with the price re-fetched live from the
current Item record; a line item whose Item record no longer exists is
silently omitted from the order's item list and contributes nothing to
the total, and the computation is total (never aborts). -/
theorem claim_C6 (dateKey : Int → String) (itemsStore : List Item)
    (checkoutStore : List Checkout) (u : String)
    (hq : ∀ c ∈ checkoutStore, 1 ≤ c.quantity) :
    ∀ o ∈ fetchOrders dateKey itemsStore checkoutStore u,
      o.total = (((checkoutStore.filter
            (fun c => c.user_id == u && c.is_done == true)).filter
          (fun c => dateKey c.updatedAt == o.date)).map
            (fun c => match getItemById itemsStore c.item_id with
              | some it => it.price * (c.quantity : Int)
              | none => 0)).sum
      ∧ o.items.map Prod.fst
          = ((checkoutStore.filter
                (fun c => c.user_id == u && c.is_done == true)).filter
              (fun c => dateKey c.updatedAt == o.date)).filterMap
                (fun c => getItemById itemsStore c.item_id) := by
  intro o ho
  obtain ⟨k, hk, rfl⟩ := List.mem_map.mp ho
  have hgq : ∀ c ∈ (checkoutStore.filter
        (fun c => c.user_id == u && c.is_done == true)).filter
      (fun c => dateKey c.updatedAt == k), 1 ≤ c.quantity :=
    fun c hc => hq c (List.mem_of_mem_filter (List.mem_of_mem_filter hc))
  exact ⟨sum_hydrate itemsStore _ hgq, fst_hydrate itemsStore _⟩

/-- Witness for C6 at a one-order store. -/
theorem claim_C6_witness :
    (∀ c ∈ [checkoutDone], 1 ≤ c.quantity)
    ∧ (fetchOrders (fun _ => "d") [itemA] [checkoutDone] "u1"
        = [{ date := "d", items := [(itemA, 2)], total := 20 }])
    ∧ ({ date := "d", items := [(itemA, 2)], total := 20 } : OrderView).total
        = ((([checkoutDone].filter
              (fun c => c.user_id == "u1" && c.is_done == true)).filter
            (fun c => (fun _ : Int => "d") c.updatedAt == "d")).map
              (fun c => match getItemById [itemA] c.item_id with
                | some it => it.price * (c.quantity : Int)
                | none => 0)).sum := by
  have heval : fetchOrders (fun _ => "d") [itemA] [checkoutDone] "u1"
      = [{ date := "d", items := [(itemA, 2)], total := 20 }] := by
    simp [fetchOrders, firstKeys, hydrate, getItemById, checkoutDone, itemA]
  refine ⟨by decide, heval, ?_⟩
  have h := claim_C6 (fun _ => "d") [itemA] [checkoutDone] "u1" (by decide)
    { date := "d", items := [(itemA, 2)], total := 20 } (by rw [heval]; exact List.mem_singleton.mpr rfl)
  exact h.1

theorem lexLe_cons_iff (x y : Nat) (xs ys : List Nat) :
    lexLe (x :: xs) (y :: ys) = true ↔ (x < y ∨ (x = y ∧ lexLe xs ys = true)) := by
  simp only [lexLe]
  by_cases h1 : x < y
  · simp [h1]
  · by_cases h2 : y < x
    · simp [h1, h2]
      omega
    · have hxy : x = y := by omega
      simp [h1, h2, hxy]

theorem lexLt_cons_iff (x y : Nat) (xs ys : List Nat) :
    lexLt (x :: xs) (y :: ys) = true ↔ (x < y ∨ (x = y ∧ lexLt xs ys = true)) := by
  simp only [lexLt]
  by_cases h1 : x < y
  · simp [h1]
  · by_cases h2 : y < x
    · simp [h1, h2]
      omega
    · have hxy : x = y := by omega
      simp [h1, h2, hxy]

theorem lexLe_refl : ∀ a : List Nat, lexLe a a = true
  | [] => rfl
  | x :: xs => (lexLe_cons_iff x x xs xs).mpr (Or.inr ⟨rfl, lexLe_refl xs⟩)

theorem lexLe_total : ∀ a b : List Nat, lexLe a b = true ∨ lexLe b a = true
  | [], _ => Or.inl rfl
  | _ :: _, [] => Or.inr rfl
  | x :: xs, y :: ys => by
    rcases Nat.lt_trichotomy x y with h | h | h
    · exact Or.inl ((lexLe_cons_iff x y xs ys).mpr (Or.inl h))
    · rcases lexLe_total xs ys with h2 | h2
      · exact Or.inl ((lexLe_cons_iff x y xs ys).mpr (Or.inr ⟨h, h2⟩))
      · exact Or.inr ((lexLe_cons_iff y x ys xs).mpr (Or.inr ⟨h.symm, h2⟩))
    · exact Or.inr ((lexLe_cons_iff y x ys xs).mpr (Or.inl h))

theorem lexLe_trans : ∀ a b c : List Nat,
    lexLe a b = true → lexLe b c = true → lexLe a c = true
  | [], _, _, _, _ => rfl
  | _ :: _, [], _, hab, _ => by simp [lexLe] at hab
  | _ :: _, _ :: _, [], _, hbc => by simp [lexLe] at hbc
  | x :: xs, y :: ys, z :: zs, hab, hbc => by
    rcases (lexLe_cons_iff x y xs ys).mp hab with h1 | ⟨h1, hrec1⟩ <;>
      rcases (lexLe_cons_iff y z ys zs).mp hbc with h2 | ⟨h2, hrec2⟩
    · exact (lexLe_cons_iff x z xs zs).mpr (Or.inl (by omega))
    · exact (lexLe_cons_iff x z xs zs).mpr (Or.inl (by omega))
    · exact (lexLe_cons_iff x z xs zs).mpr (Or.inl (by omega))
    · exact (lexLe_cons_iff x z xs zs).mpr
        (Or.inr ⟨by omega, lexLe_trans xs ys zs hrec1 hrec2⟩)

theorem lexLt_of_le_of_lt : ∀ a b c : List Nat,
    lexLe a b = true → lexLt b c = true → lexLt a c = true
  | [], [], _, _, hbc => hbc
  | [], _ :: _, [], _, hbc => by simp [lexLt] at hbc
  | [], _ :: _, _ :: _, _, _ => rfl
  | _ :: _, [], _, hab, _ => by simp [lexLe] at hab
  | _ :: _, _ :: _, [], _, hbc => by simp [lexLt] at hbc
  | x :: xs, y :: ys, z :: zs, hab, hbc => by
    rcases (lexLe_cons_iff x y xs ys).mp hab with h1 | ⟨h1, hrec1⟩ <;>
      rcases (lexLt_cons_iff y z ys zs).mp hbc with h2 | ⟨h2, hrec2⟩
    · exact (lexLt_cons_iff x z xs zs).mpr (Or.inl (by omega))
    · exact (lexLt_cons_iff x z xs zs).mpr (Or.inl (by omega))
    · exact (lexLt_cons_iff x z xs zs).mpr (Or.inl (by omega))
    · exact (lexLt_cons_iff x z xs zs).mpr
        (Or.inr ⟨by omega, lexLt_of_le_of_lt xs ys zs hrec1 hrec2⟩)

theorem lexLe_self_append : ∀ (a r : List Nat), lexLe a (a ++ r) = true
  | [], _ => rfl
  | x :: xs, r => (lexLe_cons_iff x x xs (xs ++ r)).mpr
      (Or.inr ⟨rfl, lexLe_self_append xs r⟩)

theorem lexLt_append_last : ∀ (p : List Nat) (c d : Nat), c < d →
    lexLt (p ++ [c]) (p ++ [d]) = true
  | [], c, d, h => by simp [lexLt, h]
  | x :: p, c, d, h => (lexLt_cons_iff x x (p ++ [c]) (p ++ [d])).mpr
      (Or.inr ⟨rfl, lexLt_append_last p c d h⟩)

theorem lexLe_append_gt : ∀ (p : List Nat) (c d : Nat) (r s : List Nat), c < d →
    lexLe (p ++ d :: r) (p ++ c :: s) = false
  | [], c, d, r, s, h => by
    have h1 : ¬(d < c) := by omega
    simp [lexLe, h1, h]
  | x :: p, c, d, r, s, h => by
    have hrec := lexLe_append_gt p c d r s h
    simp only [List.cons_append]
    simp [lexLe, hrec]

/-- C7: `searchItems` returns at most `limit` items, ordered by name, all
of whose names lie in the prefix-bounded range
`[searchQuery, searchQuery + MAX_CODEPOINT)`; a name exactly equal to the
query passes the range filter, and a name one greater in the last code
unit of the query (e.g. `"iPhonf"` for `"iPhone"`) is never returned. -/
theorem claim_C7 (store : List Item) (q : List Nat) (n : Nat) (hn : 1 ≤ n) :
    (searchItems store q n).length ≤ n
    ∧ (searchItems store q n).Pairwise (fun a b => lexLe a.name b.name = true)
    ∧ (∀ it ∈ searchItems store q n,
        lexLe q it.name = true ∧ lexLt it.name (q ++ [MAX_CODEPOINT]) = true)
    ∧ (∀ it ∈ store, it.name = q → searchRange q it.name = true
        ∧ it ∈ (store.mergeSort (fun a b => lexLe a.name b.name)).filter
            (fun it2 => searchRange q it2.name))
    ∧ (∀ p c, q = p ++ [c] → ∀ it ∈ searchItems store q n,
        it.name ≠ p ++ [c + 1]) := by
  refine ⟨List.length_take_le _ _, ?_, ?_, ?_, ?_⟩
  · have hsorted : (store.mergeSort (fun a b => lexLe a.name b.name)).Pairwise
        (fun a b => lexLe a.name b.name = true) :=
      List.sorted_mergeSort (fun a b c => lexLe_trans a.name b.name c.name)
        (fun a b => by rcases lexLe_total a.name b.name with h | h <;> simp [h]) store
    exact List.Pairwise.sublist (List.take_sublist _ _)
      (List.Pairwise.filter _ hsorted)
  · intro it hit
    have hmem := List.mem_of_mem_take hit
    have hfil := (List.mem_filter.mp hmem).2
    obtain ⟨h1, h2⟩ := Bool.and_eq_true_iff.mp hfil
    exact ⟨h1, lexLt_of_le_of_lt _ _ _ h2
      (lexLt_append_last q SENTINEL MAX_CODEPOINT (by decide))⟩
  · intro it hst hname
    have hr : searchRange q it.name = true := by
      rw [hname]
      unfold searchRange
      rw [lexLe_refl, lexLe_self_append]
      rfl
    exact ⟨hr, List.mem_filter.mpr ⟨List.mem_mergeSort.mpr hst, hr⟩⟩
  · intro p c hq it hit hname
    have hmem := List.mem_of_mem_take hit
    have hfil := (List.mem_filter.mp hmem).2
    obtain ⟨h1, h2⟩ := Bool.and_eq_true_iff.mp hfil
    rw [hname, hq, List.append_assoc, List.singleton_append] at h2
    have hfalse : lexLe (p ++ (c + 1) :: ([] : List Nat)) (p ++ c :: [SENTINEL]) = false :=
      lexLe_append_gt p c (c + 1) [] [SENTINEL] (by omega)
    have hcontra := h2.symm.trans hfalse
    simp at hcontra

/-- Witness for C7 at a concrete store. -/
theorem claim_C7_witness :
    (1 ≤ 1) ∧ (searchItems [itemA] [0x61] 1).length ≤ 1 :=
  ⟨by decide, (claim_C7 [itemA] [0x61] 1 (by decide)).1⟩

end IAVoice
